import Mathlib

/-!
# Verification of the NESS visor core (src/src/wallet/readable.go, visor part)

Shallow embedding of the visor's data model and operations.  Pure Go
functions become Lean functions; the bolt-DB state (blockchain, unspent
index, unconfirmed pool, history index) becomes an explicit `VisorState`
threaded through the operations; `db.Update` becomes an atomic wrapper
that rolls the state back on error.  Machine integers (uint64) are `Nat`
with explicit `< 2^64` overflow checks, as in `mathutil.AddUint64`.

Functions of the repository that live outside the provided sources
(packages `coin`, `historydb`, the pool and blockchain bucket code) are
modelled from the spec; each such definition carries a doc comment
starting `Modelled from the spec:`.
-/

namespace NessVisor

/-- 2^64, the modulus of Go's uint64 arithmetic. -/
def U64 : Nat := 18446744073709551616

/-- Addresses are abstracted to naturals (cipher.Address is out of scope). -/
abbrev Addr := Nat

/-- 32-byte hashes are abstracted to naturals. -/
abbrev Hash := Nat

/-- A transaction output: owning address, coin amount, coin-hour amount
(`coin.TransactionOutput`). -/
structure TransactionOutput where
  address : Addr
  coins : Nat
  hours : Nat
  deriving DecidableEq, Repr

/-- A transaction (`coin.Transaction`): its hash (a pure function of the
encoded form, abstracted to a field), input output-identifiers, outputs,
and encoded byte size. -/
structure Transaction where
  hash : Hash
  inputs : List Hash
  outs : List TransactionOutput
  size : Nat
  deriving DecidableEq, Repr

/-- An unspent output (`coin.UxOut`): identifier, owner, coins, coin-hours
at creation, creation block time. -/
structure UxOut where
  id : Hash
  address : Addr
  coins : Nat
  hours : Nat
  ctime : Nat
  deriving DecidableEq, Repr

/-- A block (`coin.Block`): header sequence number, timestamp, header
hash (abstracted to a field) and body transactions. -/
structure Block where
  seq : Nat
  time : Nat
  hh : Hash
  txns : List Transaction
  deriving DecidableEq, Repr

/-- A signed block (`coin.SignedBlock`): a block plus a detached signature
over its header hash. -/
structure SignedBlock where
  block : Block
  sig : Nat
  deriving DecidableEq, Repr

/-- Errors distinguished by the visor operations. -/
inductive VErr where
  | msg (s : String)
  | invalidSignature
  | hardViolation
  | softViolation
  | unspentNotExist
  deriving DecidableEq, Repr

/-- Coin-hour computation errors of the `coin` package.  `addEarned` is
`coin.ErrAddEarnedCoinHoursAdditionOverflow`, the error that
`GetBalanceOfAddresses` special-cases; `calcOverflow` stands for the
other (per-output accrual calculation) overflow errors. -/
inductive CHErr where
  | addEarned
  | calcOverflow
  deriving DecidableEq, Repr

/-- Modelled from the spec: `UxOut.CoinHours` of the `coin` package (not
under src/).  Coin-hours accrue linearly with block time since creation
and are computed with overflow checks; an overflow while computing the
accrual is a `calcOverflow` error, an overflow adding the earned hours to the
base hours is the `addEarned` error.  Returns the Go pair
(value, error), with value 0 alongside any error. -/
def uxCoinHours (t : Nat) (ux : UxOut) : Nat × Option CHErr :=
  let earned := ux.coins * (t - ux.ctime)
  if earned < U64 then
    if ux.hours + earned < U64 then (ux.hours + earned, none)
    else (0, some .addEarned)
  else (0, some .calcOverflow)

/-- Modelled from the spec: `UxArray.CoinHours` of the `coin` package (not
under src/).  Sums the accrued coin-hours of the outputs with
overflow-checked additions; a per-output error propagates, an overflow of
the running total is reported as `addEarned`
(`ErrAddEarnedCoinHoursAdditionOverflow`).  Go-style (value, error) pair,
value 0 alongside any error. -/
def uxArrayCoinHours (t : Nat) : List UxOut → Nat × Option CHErr
  | [] => (0, none)
  | ux :: rest =>
    match uxCoinHours t ux with
    | (_, some e) => (0, some e)
    | (h, none) =>
      match uxArrayCoinHours t rest with
      | (_, some e) => (0, some e)
      | (total, none) =>
        if h + total < U64 then (h + total, none) else (0, some .addEarned)

/-- Modelled from the spec: `UxArray.Coins` of the `coin` package (not
under src/).  Overflow-checked sum of the coin amounts; `none` on
overflow. -/
def uxArrayCoins : List UxOut → Option Nat
  | [] => some 0
  | ux :: rest =>
    match uxArrayCoins rest with
    | none => none
    | some total => if ux.coins + total < U64 then some (ux.coins + total) else none

/-- Modelled from the spec: `UxArray.Sub` of the `coin` package (not under
src/): the outputs of the first array whose identifier does not occur in
the second. -/
def uxArraySub (uxs other : List UxOut) : List UxOut :=
  uxs.filter (fun u => !(other.any (fun o => o.id == u.id)))

/-- Modelled from the spec: `UxArray.Add` of the `coin` package (not under
src/): appends the outputs of the second array whose identifier is not
already present in the first. -/
def uxArrayAdd (uxs other : List UxOut) : List UxOut :=
  uxs ++ other.filter (fun o => !(uxs.any (fun u => u.id == o.id)))

/-- The state of the history index (`historydb`, modelled from the spec):
parsed-block-progress bookkeeping (`none` = nothing parsed, the `ok=false`
case of `ParsedBlockSeq`), the recorded transaction hashes, the addresses
marked seen, and the trace of block sequence numbers parsed, in order. -/
structure HistoryState where
  parsedSeq : Option Nat
  txnHashes : List Hash
  seenAddrs : List Addr
  parsedBlocks : List Nat
  deriving DecidableEq, Repr

/-- The visor's database state: the chain (blocks in execution order, the
block at index i having sequence number i once well-formed), the
unspent-output index, the unconfirmed pool (transactions keyed by their
hash), and the history index. -/
structure VisorState where
  chain : List SignedBlock
  unspent : List UxOut
  pool : List Transaction
  history : HistoryState
  deriving DecidableEq, Repr

/-- Modelled from the spec: `UnspentPool.GetUnspentsOfAddrs` for a single
address (not under src/): the unspent outputs owned by the address.  The
Go map contains a key only for addresses owning at least one unspent, so
map-membership corresponds to this list being nonempty. -/
def unspentsOfAddr (unspent : List UxOut) (a : Addr) : List UxOut :=
  unspent.filter (fun u => u.address == a)

/-- Modelled from the spec: `UnspentPool.GetArray` (not under src/): batch
lookup of unspents by hash, failing (`none`) if any hash is absent
(`ErrUnspentNotExist`). -/
def getArray (unspent : List UxOut) : List Hash → Option (List UxOut)
  | [] => some []
  | h :: rest =>
    match unspent.find? (fun u => u.id == h) with
    | none => none
    | some u =>
      match getArray unspent rest with
      | none => none
      | some us => some (u :: us)

/-- A balance (`wallet.Balance`): coins and hours. -/
structure Balance where
  coins : Nat
  hours : Nat
  deriving DecidableEq, Repr

/-- A balance pair (`wallet.BalancePair`): confirmed and predicted. -/
structure BalancePair where
  confirmed : Balance
  predicted : Balance
  deriving DecidableEq, Repr

/-- The zero balance pair, Go's `wallet.BalancePair{}`. -/
def zeroBalancePair : BalancePair := ⟨⟨0, 0⟩, ⟨0, 0⟩⟩

/-- Modelled from the spec: `txnOutputsForAddrs` (not under src/) restricted
to one address: the unspent outputs that the pool transactions would
create for that address, with identifiers derived from the transaction
hash and output index and creation time equal to the head time. -/
def recvUxsOf (headTime : Nat) (pool : List Transaction) (a : Addr) : List UxOut :=
  pool.flatMap (fun txn =>
    (List.range txn.outs.length).filterMap (fun i =>
      match txn.outs[i]? with
      | some o =>
        if o.address == a then
          some { id := Nat.pair txn.hash i, address := o.address,
                 coins := o.coins, hours := o.hours, ctime := headTime }
        else none
      | none => none))

/-- The per-address body of `Visor.GetBalanceOfAddresses`
(src/src/wallet/readable.go lines 2006-2049): builds the predicted set,
sums confirmed and predicted coins (aborting on overflow) and coin-hours,
special-casing `ErrAddEarnedCoinHoursAdditionOverflow` exactly as the Go
code does — including the Go code's assignment of `coinHours = 0` (the
confirmed hours variable) in the predicted-hours overflow branch. -/
def balancePairOf (headTime : Nat) (uxs outUxs inUxs : List UxOut) :
    Except VErr BalancePair :=
  match uxArrayCoins uxs with
  | none => .error (.msg "uxs.Coins failed")
  | some coins =>
    match uxArrayCoinHours headTime uxs with
    | (_, some .calcOverflow) => .error (.msg "uxs.CoinHours failed")
    | (v, e) =>
      -- here e is none (v the total) or `addEarned` (Go sets coinHours = 0)
      match uxArrayCoins (uxArrayAdd (uxArraySub uxs outUxs) inUxs) with
      | none => .error (.msg "predictedUxs.Coins failed")
      | some pcoins =>
        match uxArrayCoinHours headTime (uxArrayAdd (uxArraySub uxs outUxs) inUxs) with
        | (_, some .calcOverflow) => .error (.msg "predictedUxs.CoinHours failed")
        | (pv, pe) =>
          -- On the predicted overflow the Go code zeroes `coinHours` (the
          -- CONFIRMED hours variable, not pcoinHours); pcoinHours keeps
          -- the 0 returned alongside the error.
          .ok { confirmed := ⟨coins,
                  if pe == some CHErr.addEarned then 0
                  else if e == some CHErr.addEarned then 0 else v⟩,
                predicted := ⟨pcoins, pv⟩ }

/-- The per-address loop of `Visor.GetBalanceOfAddresses`
(src/src/wallet/readable.go lines 1999-2052): for each address, an
address owning no confirmed unspents yields the zero balance pair;
otherwise the balance pair is computed, any error aborting the whole
loop. -/
def balanceLoop (headTime : Nat) (unspent uxa : List UxOut)
    (pool : List Transaction) : List Addr → Except VErr (List BalancePair)
  | [] => .ok []
  | a :: rest =>
    if (unspentsOfAddr unspent a).isEmpty then
      match balanceLoop headTime unspent uxa pool rest with
      | .error e => .error e
      | .ok bps => .ok (zeroBalancePair :: bps)
    else
      match balancePairOf headTime (unspentsOfAddr unspent a)
          (uxa.filter (fun u => u.address == a)) (recvUxsOf headTime pool a) with
      | .error e => .error e
      | .ok bp =>
        match balanceLoop headTime unspent uxa pool rest with
        | .error e => .error e
        | .ok bps => .ok (bp :: bps)

/-- `Visor.GetBalanceOfAddresses` (src/src/wallet/readable.go lines
1931-2055): empty query answers immediately; otherwise reads the head
block, gathers the pool transactions, the unspents spent by pool inputs
(`GetArray`, failing if any is absent), and computes one balance pair per
address. -/
def getBalanceOfAddresses (s : VisorState) (addrs : List Addr) :
    Except VErr (List BalancePair) :=
  if addrs.isEmpty then .ok [] else
  match s.chain.getLast? with
  | none => .error (.msg "no head block")
  | some head =>
    match getArray s.unspent (s.pool.flatMap (fun t => t.inputs)) with
    | none => .error (.msg "GetArray failed when checking addresses balance")
    | some uxa =>
      balanceLoop head.block.time s.unspent uxa s.pool addrs

/-! ## Constraint verification, pool injection, chain execution -/

/-- The verification policy contexts of `Config` / `params`
(`UnconfirmedVerifyTxn`, `CreateBlockVerifyTxn`, `params.UserVerifyTxn`). -/
inductive Policy where
  | user
  | unconfirmed
  | createBlock
  deriving DecidableEq, Repr

/-- The visor configuration.  The soft/hard constraint verdicts per policy
and the user-level structural check are modelled from the spec as opaque
policy predicates (`true` = the transaction violates that tier), since the
constraint definitions live outside src/.  `feeOf` models
`blockchain.TransactionFee`. -/
structure Config where
  blockchainPubkey : Nat
  softViol : Policy → Transaction → Bool
  hardViol : Policy → Transaction → Bool
  userStructuralViol : Transaction → Bool
  maxBlockTransactionsSize : Nat
  maxBlockTransactions : Nat
  feeOf : Transaction → Nat

/-- Modelled from the spec: `Blockchain.VerifySingleTxnSoftHardConstraints`
(not under src/): hard constraints (including existence of the spent
outputs, checked via `GetArray`) are fatal, then soft constraints are
fatal in this full-verification entry point; on success returns the head
block and the spent outputs. -/
def verifySingleTxnSoftHardConstraints (cfg : Config) (p : Policy)
    (s : VisorState) (txn : Transaction) : Except VErr (SignedBlock × List UxOut) :=
  if cfg.hardViol p txn then .error .hardViolation
  else
    match s.chain.getLast? with
    | none => .error (.msg "no head block")
    | some head =>
      match getArray s.unspent txn.inputs with
      | none => .error .hardViolation
      | some uxs =>
        if cfg.softViol p txn then .error .softViolation
        else .ok (head, uxs)

/-- The hashes of the transactions currently in the pool. -/
def poolHashes (s : VisorState) : List Hash :=
  s.pool.map (fun t => t.hash)

/-- Modelled from the spec: `UnconfirmedTransactionPool.InjectTransaction`
(not under src/): hard constraints are fatal (error, nothing recorded);
a soft violation is recorded and returned as advisory data but does not
block injection; re-injecting an already-present hash reports
`already_known = true` without duplicating state.  Returns
(known, softErr, err, state). -/
def injectTransaction (cfg : Config) (p : Policy) (s : VisorState)
    (txn : Transaction) : Bool × Option VErr × Option VErr × VisorState :=
  if cfg.hardViol p txn then (false, none, some .hardViolation, s)
  else
    let softErr := if cfg.softViol p txn then some VErr.softViolation else none
    let known := s.pool.any (fun t => t.hash == txn.hash)
    let s' := if known then s else { s with pool := s.pool ++ [txn] }
    (known, softErr, none, s')

/-- `Visor.InjectForeignTransaction` (src/src/wallet/readable.go lines
1033-1046): injects with the unconfirmed-pool policy inside one
`db.Update` scope; on error the update rolls back and the Go function
returns (false, nil, err). -/
def injectForeignTransaction (cfg : Config) (s : VisorState)
    (txn : Transaction) : (Bool × Option VErr × Option VErr) × VisorState :=
  match injectTransaction cfg .unconfirmed s txn with
  | (_, _, some e, _) => ((false, none, some e), s)
  | (known, softErr, none, s') => ((known, softErr, none), s')

/-- `Visor.InjectUserTransactionTx` (src/src/wallet/readable.go lines
1073-1089): user structural constraints, then full soft+hard verification
under the strict user policy, then pool injection.  Returns
(known, head, inputs, err, state). -/
def injectUserTransactionTx (cfg : Config) (s : VisorState) (txn : Transaction) :
    (Bool × Option SignedBlock × List UxOut × Option VErr) × VisorState :=
  if cfg.userStructuralViol txn then
    ((false, none, [], some (.msg "user constraints")), s)
  else
    match verifySingleTxnSoftHardConstraints cfg .user s txn with
    | .error e => ((false, none, [], some e), s)
    | .ok (head, inputs) =>
      let (known, _softErr, err, s') := injectTransaction cfg .user s txn
      ((known, some head, inputs, err), s')

/-- `Visor.InjectUserTransaction` (src/src/wallet/readable.go lines
1052-1066): `InjectUserTransactionTx` inside one `db.Update` scope;
on error the update rolls back and the Go function returns
(false, nil, nil, err). -/
def injectUserTransaction (cfg : Config) (s : VisorState) (txn : Transaction) :
    (Bool × Option SignedBlock × List UxOut × Option VErr) × VisorState :=
  match injectUserTransactionTx cfg s txn with
  | ((_, _, _, some e), _) => ((false, none, [], some e), s)
  | (r, s') => (r, s')

/-- Modelled from the spec: signature production by the single authorized
publisher key — a signature is valid for a public key and header hash
exactly when it is this pair encoding (abstracting
`cipher.VerifyPubKeySignedHash`). -/
def sigFor (pubkey : Nat) (headerHash : Hash) : Nat :=
  Nat.pair pubkey headerHash

/-- Modelled from the spec: `SignedBlock.VerifySignature` against the
configured blockchain publisher public key (not under src/). -/
def verifySignature (pubkey : Nat) (b : SignedBlock) : Bool :=
  b.sig == sigFor pubkey b.block.hh

/-- The unspent outputs a block's transaction creates
(modelled from the spec's UxOut creation rule: one unspent per output,
created at the block's time and sequence). -/
def txnCreatedUxOuts (b : Block) (txn : Transaction) : List UxOut :=
  (List.range txn.outs.length).filterMap (fun i =>
    match txn.outs[i]? with
    | some o => some { id := Nat.pair txn.hash i, address := o.address,
                       coins := o.coins, hours := o.hours, ctime := b.time }
    | none => none)

/-- Modelled from the spec: applying one transaction to the unspent index
inside `Blockchain.ExecuteBlock`: every consumed input must still be
present (the double-spend guard: `remove` fails if absent); inputs are
removed and the created outputs added. -/
def applyTxnToUnspent (b : Block) (txn : Transaction) (unspent : List UxOut) :
    Except VErr (List UxOut) :=
  if txn.inputs.all (fun h => unspent.any (fun u => u.id == h)) then
    .ok ((unspent.filter (fun u => !(txn.inputs.any (fun h => u.id == h))))
          ++ txnCreatedUxOuts b txn)
  else .error .unspentNotExist

/-- Folds `applyTxnToUnspent` over a block's transactions. -/
def applyTxnsToUnspent (b : Block) : List Transaction → List UxOut →
    Except VErr (List UxOut)
  | [], unspent => .ok unspent
  | txn :: rest, unspent =>
    match applyTxnToUnspent b txn unspent with
    | .error e => .error e
    | .ok unspent' => applyTxnsToUnspent b rest unspent'

/-- Modelled from the spec: `Blockchain.ExecuteBlock` (not under src/):
re-validates block constraints (the sequence number must directly follow
the head, each transaction must pass hard constraints and spend only
existing unspents), then removes the consumed and inserts the produced
unspents and appends the block. -/
def executeBlock (cfg : Config) (s : VisorState) (b : SignedBlock) :
    Except VErr VisorState :=
  if b.block.seq ≠ s.chain.length then .error (.msg "block sequence out of order")
  else if b.block.txns.any (fun t => cfg.hardViol .createBlock t) then
    .error .hardViolation
  else
    match applyTxnsToUnspent b.block b.block.txns s.unspent with
    | .error e => .error e
    | .ok unspent' => .ok { s with chain := s.chain ++ [b], unspent := unspent' }

/-- Modelled from the spec: `HistoryDB.ParseBlock` (not under src/):
incrementally extends the index by one block — records each transaction
by hash, marks each output's address seen, appends the block to the
parse trace and advances the parsed-block bookkeeping. -/
def historyParseBlock (h : HistoryState) (b : Block) : HistoryState :=
  { parsedSeq := some b.seq,
    txnHashes := h.txnHashes ++ b.txns.map (fun t => t.hash),
    seenAddrs := h.seenAddrs ++ b.txns.flatMap (fun t => t.outs.map (fun o => o.address)),
    parsedBlocks := h.parsedBlocks ++ [b.seq] }

/-- Modelled from the spec: `UnconfirmedTransactionPool.RemoveTransactions`
(not under src/): deletes pooled entries with the given hashes, never
failing for missing hashes. -/
def removeTransactions (s : VisorState) (hashes : List Hash) : VisorState :=
  { s with pool := s.pool.filter (fun t => !(hashes.any (fun h => h == t.hash))) }

/-- `Visor.executeSignedBlockUnsafe` (src/src/wallet/readable.go lines
677-694): executes the block, removes the block's transactions from the
unconfirmed pool, and parses the block into the history index — all
against the same transaction scope. -/
def executeSignedBlockUnsafeTx (cfg : Config) (s : VisorState) (b : SignedBlock) :
    Except VErr VisorState :=
  match executeBlock cfg s b with
  | .error e => .error e
  | .ok s1 =>
    let txnHashes := b.block.txns.map (fun t => t.hash)
    let s2 := removeTransactions s1 txnHashes
    .ok { s2 with history := historyParseBlock s2.history b.block }

/-- `Visor.executeSignedBlock` (src/src/wallet/readable.go lines 667-673):
verifies the publisher signature, then defers to the unsafe variant. -/
def executeSignedBlockTx (cfg : Config) (s : VisorState) (b : SignedBlock) :
    Except VErr VisorState :=
  if verifySignature cfg.blockchainPubkey b then executeSignedBlockUnsafeTx cfg s b
  else .error .invalidSignature

/-- The atomic `db.Update` scope: on success the new state is committed,
on error every mutation is rolled back and the original state kept. -/
def dbUpdate (f : VisorState → Except VErr VisorState) (s : VisorState) :
    Option VErr × VisorState :=
  match f s with
  | .ok s' => (none, s')
  | .error e => (some e, s)

/-- `Visor.ExecuteSignedBlock` (src/src/wallet/readable.go lines 651-655):
`executeSignedBlock` inside one `db.Update` scope. -/
def executeSignedBlockVisor (cfg : Config) (b : SignedBlock) (s : VisorState) :
    Option VErr × VisorState :=
  dbUpdate (fun s => executeSignedBlockTx cfg s b) s

/-- `Visor.ExecuteSignedBlockUnsafe` (src/src/wallet/readable.go lines
659-663): `executeSignedBlockUnsafe` inside one `db.Update` scope. -/
def executeSignedBlockUnsafeVisor (cfg : Config) (b : SignedBlock) (s : VisorState) :
    Option VErr × VisorState :=
  dbUpdate (fun s => executeSignedBlockUnsafeTx cfg s b) s

/-! ## History index initialization -/

/-- Modelled from the spec: `HistoryDB.Erase` (not under src/): resets the
index to the empty, nothing-parsed state. -/
def eraseHistory : HistoryState :=
  { parsedSeq := none, txnHashes := [], seenAddrs := [], parsedBlocks := [] }

/-- Modelled from the spec: `HistoryDB.ParsedBlockSeq` (not under src/):
the parsed-height bookkeeping, as the Go pair (seq, ok) — (0, false) when
nothing has been parsed. -/
def parsedBlockSeqPair (h : HistoryState) : Nat × Bool :=
  match h.parsedSeq with
  | none => (0, false)
  | some p => (p, true)

/-- Modelled from the spec: `HistoryDB.NeedsReset` (not under src/): true
when the parsed-height bookkeeping is missing or inconsistent with the
chain's current head. -/
def needsReset (h : HistoryState) (chain : List SignedBlock) : Bool :=
  match h.parsedSeq with
  | none => true
  | some p => p != chain.length - 1

/-- `Blockchain.GetSignedBlockBySeq` restricted to a well-formed chain
(blocks stored by sequence number): lookup by index. -/
def getSignedBlockBySeq (chain : List SignedBlock) (seq : Nat) :
    Option SignedBlock :=
  chain[seq]?

/-- The body of the loop of `parseHistoryTo` (src/src/wallet/readable.go
lines 419-432): `count` iterations remain, the next block to parse has
sequence `from + 1`; a missing block aborts with an error. -/
def parseHistoryLoop (chain : List SignedBlock) :
    Nat → Nat → HistoryState → Except VErr HistoryState
  | _, 0, h => .ok h
  | start, count + 1, h =>
    match getSignedBlockBySeq chain (start + 1) with
    | none => .error (.msg "no block exists in depth")
    | some b => parseHistoryLoop chain (start + 1) count (historyParseBlock h b.block)

/-- `parseHistoryTo` (src/src/wallet/readable.go lines 411-435): reads the
parsed-block bookkeeping — discarding the `ok` flag, as the Go code does —
and parses the blocks `parsedBlockSeq+1 .. height` in increasing order.
The Go loop bound `height - parsedBlockSeq` is uint64 subtraction; it is
reproduced with wraparound. -/
def parseHistoryTo (chain : List SignedBlock) (h : HistoryState) (height : Nat) :
    Except VErr HistoryState :=
  let parsedBlockSeq := (parsedBlockSeqPair h).1
  let count := (U64 + height - parsedBlockSeq % U64) % U64
  parseHistoryLoop chain parsedBlockSeq count h

/-- `initHistory` (src/src/wallet/readable.go lines 379-409): if the
history index needs a reset, erase it and reparse up to the blockchain
head sequence (`bc.HeadSeq`, whose `ok` flag the Go code discards: an
empty chain yields head sequence 0). -/
def initHistory (chain : List SignedBlock) (h : HistoryState) :
    Except VErr HistoryState :=
  if needsReset h chain then
    let h1 := eraseHistory
    let headSeq := chain.length - 1
    parseHistoryTo chain h1 headSeq
  else .ok h

/-! ## Block construction -/

/-- The outcome of `createBlockFromTxns`: a built block, a returned error,
or a `logger.Panic` (which aborts the process rather than returning). -/
inductive BuildResult where
  | ok (b : Block)
  | err (e : VErr)
  | panic (msg : String)
  deriving DecidableEq, Repr

/-- The sort key used by block construction: fee per byte (modelled from
the spec's fee-per-kilobyte ordering; the constant factor does not affect
the order). -/
def feeRate (cfg : Config) (t : Transaction) : Nat :=
  cfg.feeOf t * 1024 / max t.size 1

/-- Whether `a` precedes `b` under the deterministic block-construction
order: strictly higher fee rate first, ties broken by transaction hash. -/
def txnBefore (cfg : Config) (a b : Transaction) : Bool :=
  feeRate cfg b < feeRate cfg a
    || (feeRate cfg a == feeRate cfg b && a.hash ≤ b.hash)

/-- Insertion into a list sorted by `txnBefore`. -/
def insertSorted (cfg : Config) (t : Transaction) :
    List Transaction → List Transaction
  | [] => [t]
  | u :: rest =>
    if txnBefore cfg t u then t :: u :: rest else u :: insertSorted cfg t rest

/-- Modelled from the spec: `coin.SortTransactions` (not under src/):
deterministic sort by fee-per-byte descending with a stable tie-break by
transaction hash. -/
def sortTransactions (cfg : Config) : List Transaction → List Transaction
  | [] => []
  | t :: rest => insertSorted cfg t (sortTransactions cfg rest)

/-- Modelled from the spec: `Transactions.TruncateBytesTo` (not under
src/): keeps the longest prefix of whole transactions whose cumulative
byte size fits the budget. -/
def truncateBytesTo : List Transaction → Nat → List Transaction
  | [], _ => []
  | t :: rest, budget =>
    if t.size ≤ budget then t :: truncateBytesTo rest (budget - t.size) else []

/-- Whether a transaction survives the constraint filter of
`createBlockFromTxns`: it violates neither tier under the
block-creation policy. -/
def survivesFilter (cfg : Config) (t : Transaction) : Bool :=
  !(cfg.hardViol .createBlock t) && !(cfg.softViol .createBlock t)

/-- `Visor.createBlockFromTxns` (src/src/wallet/readable.go lines
536-606): empty input fails; transactions violating constraints are
filtered out (a constraint violation is logged, any other verification
error aborts — the modelled verifier only produces constraint
violations); nothing surviving the filter fails; the survivors are
sorted by fee rate, truncated to the byte budget and capped at the
maximum transaction count; a truncation that removes all transactions
hits `logger.Panic`, and otherwise the block is built on the head. -/
def createBlockFromTxns (cfg : Config) (s : VisorState)
    (txns : List Transaction) (when : Nat) : BuildResult :=
  if txns.isEmpty then .err (.msg "No transactions")
  else
    let filteredTxns := txns.filter (survivesFilter cfg)
    if filteredTxns.isEmpty then
      .err (.msg "No transactions after filtering for constraint violations")
    else
      match s.chain.getLast? with
      | none => .err (.msg "no head block")
      | some head =>
        let sorted := sortTransactions cfg filteredTxns
        let truncated := truncateBytesTo sorted cfg.maxBlockTransactionsSize
        let capped := truncated.take cfg.maxBlockTransactions
        if capped.isEmpty then .panic "TruncateBytesTo removed all transactions"
        else
          .ok { seq := head.block.seq + 1, time := when,
                hh := Nat.pair (head.block.seq + 1) when, txns := capped }

/-! ## Address activity -/

/-- `cipher.Addresser`: a skycoin address or an address of another
(unrecognized) kind. -/
inductive Addresser where
  | sky (a : Addr)
  | other
  deriving DecidableEq, Repr

/-- Whether the history index has seen an address
(`HistoryDB.AddressSeen`, modelled from the spec: an address is seen once
it appears in a parsed block). -/
def historySeen (s : VisorState) (a : Addr) : Bool :=
  s.history.seenAddrs.contains a

/-- Whether some unconfirmed pool transaction has an output to the
address. -/
def poolSendsTo (pool : List Transaction) (a : Addr) : Bool :=
  pool.any (fun t => t.outs.any (fun o => o.address == a))

/-- The downward history scan of `AddressesActivity`
(src/src/wallet/readable.go lines 2492-2502): iterating from the last
address to the first and breaking at the first hit marks exactly the
last history-seen address. -/
def markLastSeen (seen : Addr → Bool) : List Addr → List Bool
  | [] => []
  | a :: rest => (seen a && !(rest.any seen)) :: markLastSeen seen rest

/-- Conversion of the input addresses (src/src/wallet/readable.go lines
2469-2477): any address of an unrecognized kind is an error. -/
def toSkyAddrs : List Addresser → Except VErr (List Addr)
  | [] => .ok []
  | .other :: _ => .error (.msg "invalid skycoin address")
  | .sky a :: rest =>
    match toSkyAddrs rest with
    | .error e => .error e
    | .ok as => .ok (a :: as)

/-- `TransactionsFinder.AddressesActivity` (src/src/wallet/readable.go
lines 2464-2521): empty input answers immediately; the addresses are
converted (failing on an unrecognized kind) and de-duplicated via an
index map (failing on duplicates); the history is scanned from the last
address to the first, breaking at the first history-seen address; then
every address occurring as an output of a pool transaction is marked
active. -/
def addressesActivity (s : VisorState) (addrs : List Addresser) :
    Except VErr (List Bool) :=
  if addrs.isEmpty then .ok [] else
  match toSkyAddrs addrs with
  | .error e => .error e
  | .ok skyAddrs =>
    if skyAddrs.dedup.length ≠ skyAddrs.length then
      .error (.msg "duplicates addresses not allowed")
    else
      let afterHistory := markLastSeen (historySeen s) skyAddrs
      .ok (List.zipWith (fun a f => f || poolSendsTo s.pool a) skyAddrs afterHistory)

/-! ## Theorems -/

/-- C2: a transaction violating any soft or any hard constraint under the
strict user policy makes `InjectUserTransaction` return a non-nil error,
and the transaction is not added to the unconfirmed pool. -/
theorem injectUserTransaction_rejects_violations (cfg : Config) (s : VisorState)
    (txn : Transaction)
    (h : cfg.softViol .user txn = true ∨ cfg.hardViol .user txn = true) :
    (injectUserTransaction cfg s txn).1.2.2.2 ≠ none ∧
    (injectUserTransaction cfg s txn).2.pool = s.pool := by
  unfold injectUserTransaction injectUserTransactionTx
  by_cases hs : cfg.userStructuralViol txn = true
  · simp [hs]
  · unfold verifySingleTxnSoftHardConstraints
    by_cases hh : cfg.hardViol .user txn = true
    · simp [hs, hh]
    · have hsoft : cfg.softViol .user txn = true := by
        rcases h with h | h
        · exact h
        · exact absurd h hh
      cases hl : s.chain.getLast? with
      | none => simp [hs, hh, hl]
      | some head =>
        cases hg : getArray s.unspent txn.inputs with
        | none => simp [hs, hh, hl, hg]
        | some uxs => simp [hs, hh, hl, hg, hsoft]

/-- A configuration whose user policy flags a soft violation on every
transaction. -/
def cfgSoftUser : Config :=
  { blockchainPubkey := 1,
    softViol := fun p _ => p == .user,
    hardViol := fun _ _ => false,
    userStructuralViol := fun _ => false,
    maxBlockTransactionsSize := 100,
    maxBlockTransactions := 10,
    feeOf := fun _ => 1 }

/-- A transaction with no inputs and one output, used as a concrete probe. -/
def txnProbe : Transaction :=
  { hash := 11, inputs := [], outs := [⟨7, 5, 5⟩], size := 4 }

/-- A one-block chain state with an empty pool, used as a concrete probe. -/
def stateProbe : VisorState :=
  { chain := [{ block := { seq := 0, time := 1000, hh := 3, txns := [] },
                sig := sigFor 1 3 }],
    unspent := [],
    pool := [],
    history := { parsedSeq := some 0, txnHashes := [], seenAddrs := [],
                 parsedBlocks := [0] } }

/-- Witness for C2 at a concrete soft-violating transaction. -/
theorem injectUserTransaction_rejects_violations_witness :
    (cfgSoftUser.softViol .user txnProbe = true ∨
       cfgSoftUser.hardViol .user txnProbe = true) ∧
    ((injectUserTransaction cfgSoftUser stateProbe txnProbe).1.2.2.2 ≠ none ∧
     (injectUserTransaction cfgSoftUser stateProbe txnProbe).2.pool =
       stateProbe.pool) :=
  ⟨Or.inl rfl,
   injectUserTransaction_rejects_violations cfgSoftUser stateProbe txnProbe
     (Or.inl rfl)⟩

/-- C3: `InjectForeignTransaction` rejects (non-nil error, pool unchanged)
exactly the hard-constraint violators; a transaction passing the hard
constraints is injected with a nil error, any soft violation being
returned as advisory data, and the boolean result reports whether the
transaction's hash was already in the pool. -/
theorem injectForeignTransaction_spec (cfg : Config) (s : VisorState)
    (txn : Transaction) :
    (cfg.hardViol .unconfirmed txn = true →
       (injectForeignTransaction cfg s txn).1.2.2 ≠ none ∧
       (injectForeignTransaction cfg s txn).2.pool = s.pool) ∧
    (cfg.hardViol .unconfirmed txn = false →
       (injectForeignTransaction cfg s txn).1.2.2 = none ∧
       txn.hash ∈ poolHashes (injectForeignTransaction cfg s txn).2 ∧
       ((injectForeignTransaction cfg s txn).1.2.1 = some VErr.softViolation ↔
          cfg.softViol .unconfirmed txn = true) ∧
       ((injectForeignTransaction cfg s txn).1.1 = true ↔
          txn.hash ∈ poolHashes s)) := by
  unfold injectForeignTransaction injectTransaction
  have hknown : (s.pool.any (fun t => t.hash == txn.hash)) = true ↔
      txn.hash ∈ poolHashes s := by
    rw [List.any_eq_true]
    constructor
    · rintro ⟨t, ht, he⟩
      exact List.mem_map.mpr ⟨t, ht, beq_iff_eq.mp he⟩
    · intro hmem
      rcases List.mem_map.mp hmem with ⟨t, ht, he⟩
      exact ⟨t, ht, beq_iff_eq.mpr he⟩
  constructor
  · intro hh
    simp [hh]
  · intro hh
    by_cases hk : (s.pool.any (fun t => t.hash == txn.hash)) = true
    · refine ⟨by simp [hh, hk], ?_, ?_, ?_⟩
      · simpa [hh, hk] using hknown.mp hk
      · by_cases hsv : cfg.softViol .unconfirmed txn = true <;> simp [hh, hk, hsv]
      · simpa [hh, hk] using hknown
    · have hk' : (s.pool.any (fun t => t.hash == txn.hash)) = false :=
        Bool.eq_false_iff.mpr hk
      have hnot : ¬ txn.hash ∈ poolHashes s := fun hmem => hk (hknown.mpr hmem)
      refine ⟨by simp [hh, hk'], ?_, ?_, ?_⟩
      · simp [hh, hk', poolHashes]
      · by_cases hsv : cfg.softViol .unconfirmed txn = true <;> simp [hh, hk', hsv]
      · simpa [hh, hk'] using fun hmem => hnot hmem

/-- Witness for C3 at a concrete non-violating transaction. -/
theorem injectForeignTransaction_spec_witness :
    cfgSoftUser.hardViol .unconfirmed txnProbe = false ∧
    ((injectForeignTransaction cfgSoftUser stateProbe txnProbe).1.2.2 = none ∧
     txnProbe.hash ∈ poolHashes (injectForeignTransaction cfgSoftUser stateProbe txnProbe).2 ∧
     ((injectForeignTransaction cfgSoftUser stateProbe txnProbe).1.2.1 =
        some VErr.softViolation ↔
        cfgSoftUser.softViol .unconfirmed txnProbe = true) ∧
     ((injectForeignTransaction cfgSoftUser stateProbe txnProbe).1.1 = true ↔
        txnProbe.hash ∈ poolHashes stateProbe)) :=
  ⟨rfl, (injectForeignTransaction_spec cfgSoftUser stateProbe txnProbe).2 rfl⟩

/-- C5: a signed block whose signature does not verify against the
configured publisher public key makes `ExecuteSignedBlock` return an
error with no state change: chain, unspent index, pool and history are
all unchanged. -/
theorem executeSignedBlock_invalid_signature (cfg : Config) (b : SignedBlock)
    (s : VisorState) (h : verifySignature cfg.blockchainPubkey b = false) :
    (executeSignedBlockVisor cfg b s).1 = some VErr.invalidSignature ∧
    (executeSignedBlockVisor cfg b s).2.chain = s.chain ∧
    (executeSignedBlockVisor cfg b s).2.unspent = s.unspent ∧
    (executeSignedBlockVisor cfg b s).2.pool = s.pool ∧
    (executeSignedBlockVisor cfg b s).2.history = s.history := by
  unfold executeSignedBlockVisor dbUpdate executeSignedBlockTx
  simp [h]

/-- A block whose signature is not the publisher's. -/
def badlySignedBlock : SignedBlock :=
  { block := { seq := 1, time := 2000, hh := 9, txns := [] }, sig := 12345 }

/-- Witness for C5 at a concrete badly signed block. -/
theorem executeSignedBlock_invalid_signature_witness :
    verifySignature cfgSoftUser.blockchainPubkey badlySignedBlock = false ∧
    ((executeSignedBlockVisor cfgSoftUser badlySignedBlock stateProbe).1 =
       some VErr.invalidSignature ∧
     (executeSignedBlockVisor cfgSoftUser badlySignedBlock stateProbe).2.chain =
       stateProbe.chain ∧
     (executeSignedBlockVisor cfgSoftUser badlySignedBlock stateProbe).2.unspent =
       stateProbe.unspent ∧
     (executeSignedBlockVisor cfgSoftUser badlySignedBlock stateProbe).2.pool =
       stateProbe.pool ∧
     (executeSignedBlockVisor cfgSoftUser badlySignedBlock stateProbe).2.history =
       stateProbe.history) :=
  ⟨rfl, executeSignedBlock_invalid_signature cfgSoftUser badlySignedBlock
     stateProbe rfl⟩

/-- Successful block execution extends the chain by exactly the executed
block and leaves pool and history untouched (those are updated by the
caller in the same scope). -/
theorem executeBlock_ok_shape (cfg : Config) (s : VisorState) (b : SignedBlock)
    (s1 : VisorState) (h : executeBlock cfg s b = .ok s1) :
    s1.chain = s.chain ++ [b] ∧ s1.pool = s.pool ∧ s1.history = s.history := by
  unfold executeBlock at h
  split at h
  · cases h
  · split at h
    · cases h
    · cases ha : applyTxnsToUnspent b.block b.block.txns s.unspent with
      | error e => rw [ha] at h; cases h
      | ok unspent' =>
        rw [ha] at h
        cases h
        exact ⟨rfl, rfl, rfl⟩

/-- A successful `executeSignedBlockUnsafe` leaves a state in which the
block is appended, none of its transactions' hashes remain in the pool,
and the history has parsed the block. -/
theorem executeSignedBlockUnsafeTx_ok_shape (cfg : Config) (s : VisorState)
    (b : SignedBlock) (s' : VisorState)
    (h : executeSignedBlockUnsafeTx cfg s b = .ok s') :
    s'.chain = s.chain ++ [b] ∧
    (∀ t ∈ b.block.txns, t.hash ∉ poolHashes s') ∧
    s'.history.parsedSeq = some b.block.seq := by
  unfold executeSignedBlockUnsafeTx at h
  cases he : executeBlock cfg s b with
  | error e => rw [he] at h; cases h
  | ok s1 =>
    rw [he] at h
    cases h
    rcases executeBlock_ok_shape cfg s b s1 he with ⟨hc, _, _⟩
    refine ⟨hc, ?_, rfl⟩
    intro t ht hmem
    rcases List.mem_map.mp hmem with ⟨t', ht', he'⟩
    rcases List.mem_filter.mp ht' with ⟨_, hkeep⟩
    have hany : (b.block.txns.map (fun t => t.hash)).any (fun h => h == t'.hash) = true :=
      List.any_eq_true.mpr ⟨t.hash, List.mem_map.mpr ⟨t, ht, rfl⟩,
        beq_iff_eq.mpr he'.symm⟩
    rw [hany] at hkeep
    cases hkeep

/-- C4: through both block-execution entry points, the removal of the
block's transactions from the unconfirmed pool and the parsing of the
block into the history index happen in the same atomic transaction scope
as the block execution: in every state these operations can leave behind,
if the block was executed (it is in the chain) then none of its
transactions remain in the pool and the history index has parsed it. -/
theorem executeSignedBlock_same_scope (cfg : Config) (b : SignedBlock)
    (s : VisorState) (hseq : ∀ sb ∈ s.chain, sb.block.seq ≠ b.block.seq) :
    (b ∈ (executeSignedBlockVisor cfg b s).2.chain →
       (∀ t ∈ b.block.txns,
          t.hash ∉ poolHashes (executeSignedBlockVisor cfg b s).2) ∧
       (executeSignedBlockVisor cfg b s).2.history.parsedSeq = some b.block.seq) ∧
    (b ∈ (executeSignedBlockUnsafeVisor cfg b s).2.chain →
       (∀ t ∈ b.block.txns,
          t.hash ∉ poolHashes (executeSignedBlockUnsafeVisor cfg b s).2) ∧
       (executeSignedBlockUnsafeVisor cfg b s).2.history.parsedSeq =
         some b.block.seq) := by
  have hnotin : b ∉ s.chain := fun hmem => hseq b hmem rfl
  constructor
  · cases he : executeSignedBlockTx cfg s b with
    | error e =>
      simp only [executeSignedBlockVisor, dbUpdate, he]
      intro hmem
      exact absurd hmem hnotin
    | ok s' =>
      simp only [executeSignedBlockVisor, dbUpdate, he]
      intro _
      unfold executeSignedBlockTx at he
      split at he
      · rcases executeSignedBlockUnsafeTx_ok_shape cfg s b s' he with ⟨_, hp, hh⟩
        exact ⟨hp, hh⟩
      · cases he
  · cases he : executeSignedBlockUnsafeTx cfg s b with
    | error e =>
      simp only [executeSignedBlockUnsafeVisor, dbUpdate, he]
      intro hmem
      exact absurd hmem hnotin
    | ok s' =>
      simp only [executeSignedBlockUnsafeVisor, dbUpdate, he]
      intro _
      rcases executeSignedBlockUnsafeTx_ok_shape cfg s b s' he with ⟨_, hp, hh⟩
      exact ⟨hp, hh⟩

/-- A correctly signed block on top of `stateProbe`, spending nothing. -/
def nextSignedBlock : SignedBlock :=
  { block := { seq := 1, time := 2000, hh := 4,
               txns := [{ hash := 11, inputs := [], outs := [⟨7, 5, 5⟩], size := 4 }] },
    sig := sigFor 1 4 }

/-- The probe state with the probe transaction pending in the pool. -/
def stateProbePending : VisorState :=
  { stateProbe with pool := [txnProbe] }

/-- Witness for C4: executing a concrete block through `ExecuteSignedBlock`
on a state whose pool holds that block's transaction. -/
theorem executeSignedBlock_same_scope_witness :
    (∀ sb ∈ stateProbePending.chain, sb.block.seq ≠ nextSignedBlock.block.seq) ∧
    (nextSignedBlock ∈
       (executeSignedBlockVisor cfgSoftUser nextSignedBlock stateProbePending).2.chain →
     (∀ t ∈ nextSignedBlock.block.txns,
        t.hash ∉ poolHashes
          (executeSignedBlockVisor cfgSoftUser nextSignedBlock stateProbePending).2) ∧
     (executeSignedBlockVisor cfgSoftUser nextSignedBlock
         stateProbePending).2.history.parsedSeq = some nextSignedBlock.block.seq) :=
  ⟨by decide,
   (executeSignedBlock_same_scope cfgSoftUser nextSignedBlock stateProbePending
      (by decide)).1⟩

/-- A two-block chain: the genesis block and one successor. -/
def blockZero : SignedBlock :=
  { block := { seq := 0, time := 100, hh := 20,
               txns := [{ hash := 31, inputs := [], outs := [⟨5, 3, 3⟩], size := 2 }] },
    sig := sigFor 1 20 }

/-- The successor block of `blockZero`. -/
def blockOne : SignedBlock :=
  { block := { seq := 1, time := 200, hh := 21,
               txns := [{ hash := 32, inputs := [], outs := [⟨6, 4, 4⟩], size := 2 }] },
    sig := sigFor 1 21 }

/-- A history index with no parse bookkeeping, so that `NeedsReset` holds. -/
def staleHistory : HistoryState :=
  { parsedSeq := none, txnHashes := [], seenAddrs := [], parsedBlocks := [] }

/-- C8 (code evaluated at the failing input): on a two-block chain whose
history index needs a reset, `initHistory` erases the index and then — the
Go code discarding the `ok` flag of `ParsedBlockSeq` — parses only block 1,
never reparsing the genesis block 0: the parse trace afterwards is `[1]`,
not `[0, 1]`, so block 0 of the chain is parsed zero times. -/
theorem initHistory_skips_genesis_block :
    needsReset staleHistory [blockZero, blockOne] = true ∧
    initHistory [blockZero, blockOne] staleHistory =
      .ok { parsedSeq := some 1, txnHashes := [32], seenAddrs := [6],
            parsedBlocks := [1] } :=
  ⟨rfl, rfl⟩

/-- Inserting into the fee-ordered list adds one element. -/
theorem length_insertSorted (cfg : Config) (t : Transaction)
    (l : List Transaction) : (insertSorted cfg t l).length = l.length + 1 := by
  induction l with
  | nil => rfl
  | cons u rest ih =>
    unfold insertSorted
    split
    · simp
    · simp [ih]

/-- Membership in the fee-ordered insertion. -/
theorem mem_insertSorted (cfg : Config) (t a : Transaction)
    (l : List Transaction) : a ∈ insertSorted cfg t l ↔ a = t ∨ a ∈ l := by
  induction l with
  | nil => simp [insertSorted]
  | cons u rest ih =>
    unfold insertSorted
    split <;> simp [ih] <;> tauto

/-- Sorting by fee rate preserves length. -/
theorem length_sortTransactions (cfg : Config) (l : List Transaction) :
    (sortTransactions cfg l).length = l.length := by
  induction l with
  | nil => rfl
  | cons t rest ih => simp [sortTransactions, length_insertSorted, ih]

/-- Sorting by fee rate preserves membership. -/
theorem mem_sortTransactions (cfg : Config) (a : Transaction)
    (l : List Transaction) : a ∈ sortTransactions cfg l ↔ a ∈ l := by
  induction l with
  | nil => simp [sortTransactions]
  | cons t rest ih =>
    simp only [sortTransactions, mem_insertSorted, ih, List.mem_cons]

/-- C6 (counterexample to the claim as stated): a concrete transaction set
that survives constraint filtering but is emptied by the byte-budget
truncation makes `createBlockFromTxns` abort via `logger.Panic`, not
return a NoTransactions-style error. -/
def cfgTinyBlock : Config :=
  { blockchainPubkey := 1,
    softViol := fun _ _ => false,
    hardViol := fun _ _ => false,
    userStructuralViol := fun _ => false,
    maxBlockTransactionsSize := 0,
    maxBlockTransactions := 10,
    feeOf := fun _ => 1 }

/-- C6 counterexample: byte-budget truncation leaving zero transactions
hits the panic branch, not a NoTransactions error return. -/
theorem createBlockFromTxns_truncation_is_panic :
    createBlockFromTxns cfgTinyBlock stateProbe [txnProbe] 500 =
      .panic "TruncateBytesTo removed all transactions" := rfl

/-- C6 (amended): an empty candidate set or a filter that removes every
transaction yields a NoTransactions-style returned error, but a
byte-budget truncation that leaves zero transactions aborts via
`logger.Panic` instead of returning an error. -/
theorem createBlockFromTxns_failure_modes (cfg : Config) (s : VisorState)
    (txns : List Transaction) (when : Nat) :
    (txns = [] →
       createBlockFromTxns cfg s txns when = .err (.msg "No transactions")) ∧
    (txns ≠ [] → (∀ t ∈ txns, survivesFilter cfg t = false) →
       createBlockFromTxns cfg s txns when =
         .err (.msg "No transactions after filtering for constraint violations")) ∧
    ((∃ t ∈ txns, survivesFilter cfg t = true) →
     truncateBytesTo (sortTransactions cfg (txns.filter (survivesFilter cfg)))
       cfg.maxBlockTransactionsSize = [] →
     s.chain ≠ [] →
       createBlockFromTxns cfg s txns when =
         .panic "TruncateBytesTo removed all transactions") := by
  refine ⟨?_, ?_, ?_⟩
  · intro h
    subst h
    rfl
  · intro hne hall
    unfold createBlockFromTxns
    rw [if_neg (by simpa [List.isEmpty_iff] using hne)]
    have hf : txns.filter (survivesFilter cfg) = [] := by
      rw [List.filter_eq_nil]
      intro t ht
      simp [hall t ht]
    simp [hf]
  · intro hex htrunc hchain
    unfold createBlockFromTxns
    have hne : txns ≠ [] := by
      rcases hex with ⟨t, ht, _⟩
      intro h0
      rw [h0] at ht
      cases ht
    rw [if_neg (by simpa [List.isEmpty_iff] using hne)]
    have hfne : txns.filter (survivesFilter cfg) ≠ [] := by
      rcases hex with ⟨t, ht, hs⟩
      intro h0
      have hmem : t ∈ txns.filter (survivesFilter cfg) :=
        List.mem_filter.mpr ⟨ht, hs⟩
      rw [h0] at hmem
      cases hmem
    rw [if_neg (by simpa [List.isEmpty_iff] using hfne)]
    obtain ⟨head, hhead⟩ : ∃ h, s.chain.getLast? = some h := by
      cases hc : s.chain.getLast? with
      | none => exact absurd (List.getLast?_eq_none.mp hc) hchain
      | some h => exact ⟨h, rfl⟩
    rw [hhead]
    simp [htrunc]

/-- An oversized high-fee transaction: sorted ahead of the small one, it
makes the byte-budget truncation stop immediately and drop everything. -/
def txnBig : Transaction :=
  { hash := 21, inputs := [], outs := [⟨7, 1, 1⟩], size := 10 }

/-- A small transaction that would fit the byte budget on its own. -/
def txnSmall : Transaction :=
  { hash := 22, inputs := [], outs := [⟨7, 1, 1⟩], size := 1 }

/-- A configuration whose byte budget admits `txnSmall` but not `txnBig`,
with `txnBig` carrying the higher fee. -/
def cfgMixed : Config :=
  { blockchainPubkey := 1,
    softViol := fun _ _ => false,
    hardViol := fun _ _ => false,
    userStructuralViol := fun _ => false,
    maxBlockTransactionsSize := 5,
    maxBlockTransactions := 10,
    feeOf := fun t => if t.size == 10 then 100 else 1 }

/-- Witness for C6's amended theorem on a mixed-size candidate set: the
oversized high-fee transaction sorts first, truncation empties the list
even though the small transaction alone would have fit, and the model
panics. -/
theorem createBlockFromTxns_failure_modes_witness :
    (∃ t ∈ [txnBig, txnSmall], survivesFilter cfgMixed t = true) ∧
    truncateBytesTo (sortTransactions cfgMixed
        ([txnBig, txnSmall].filter (survivesFilter cfgMixed)))
      cfgMixed.maxBlockTransactionsSize = [] ∧
    stateProbe.chain ≠ [] ∧
    createBlockFromTxns cfgMixed stateProbe [txnBig, txnSmall] 500 =
      .panic "TruncateBytesTo removed all transactions" :=
  ⟨by decide, by decide, by decide,
   (createBlockFromTxns_failure_modes cfgMixed stateProbe [txnBig, txnSmall]
      500).2.2 (by decide) (by decide) (by decide)⟩

/-- Converting a list of skycoin-kind addresses succeeds and is the
identity. -/
theorem toSkyAddrs_map (as : List Addr) :
    toSkyAddrs (as.map .sky) = .ok as := by
  induction as with
  | nil => rfl
  | cons a rest ih => simp [toSkyAddrs, ih]

/-- The history scan marks one flag per address. -/
theorem length_markLastSeen (seen : Addr → Bool) (l : List Addr) :
    (markLastSeen seen l).length = l.length := by
  induction l with
  | nil => rfl
  | cons a rest ih => simp [markLastSeen, ih]

/-- The flag the downward history scan leaves at index `i`. -/
theorem markLastSeen_get (seen : Addr → Bool) (l : List Addr) (i : Nat)
    (hi : i < l.length) (hm : i < (markLastSeen seen l).length) :
    (markLastSeen seen l).get ⟨i, hm⟩ =
      (seen (l.get ⟨i, hi⟩) && !((l.drop (i + 1)).any seen)) := by
  induction l generalizing i with
  | nil => cases hi
  | cons a rest ih =>
    cases i with
    | zero => rfl
    | succ n =>
      have hm' : n < (markLastSeen seen rest).length := by
        simpa [length_markLastSeen] using Nat.lt_of_succ_lt_succ hi
      exact ih n (Nat.lt_of_succ_lt_succ hi) hm'

/-- No element from index `n` on satisfies `p` iff the drop-scan finds
none. -/
theorem any_drop_eq_false_iff (p : Addr → Bool) (l : List Addr) (n : Nat) :
    (l.drop n).any p = false ↔
      ∀ j (hj : j < l.length), n ≤ j → p (l.get ⟨j, hj⟩) = false := by
  induction l generalizing n with
  | nil => simp
  | cons a rest ih =>
    cases n with
    | zero =>
      rw [List.drop_zero, List.any_cons, Bool.or_eq_false_iff]
      have ih0 := ih 0
      rw [List.drop_zero] at ih0
      rw [ih0]
      constructor
      · rintro ⟨ha, hrest⟩ j hj _
        cases j with
        | zero => exact ha
        | succ k => exact hrest k (Nat.lt_of_succ_lt_succ hj) (Nat.zero_le k)
      · intro h
        exact ⟨h 0 (Nat.succ_pos _) (Nat.zero_le 0),
          fun k hk _ => h (k + 1) (Nat.succ_lt_succ hk) (Nat.zero_le _)⟩
    | succ m =>
      rw [List.drop_succ_cons, ih m]
      constructor
      · intro h j hj hnj
        cases j with
        | zero => exact absurd hnj (Nat.not_succ_le_zero m)
        | succ k =>
          exact h k (Nat.lt_of_succ_lt_succ hj) (Nat.le_of_succ_le_succ hnj)
      · intro h k hk hmk
        exact h (k + 1) (Nat.succ_lt_succ hk) (Nat.succ_le_succ hmk)

/-- A deduplication that loses no element certifies the absence of
duplicates. -/
theorem dedup_length_eq_iff_nodup (l : List Addr) :
    l.dedup.length = l.length ↔ l.Nodup := by
  constructor
  · intro h
    have hsub : List.Sublist l.dedup l := List.dedup_sublist l
    have heq : l.dedup = l := hsub.eq_of_length h
    rw [← heq]
    exact l.nodup_dedup
  · intro h
    rw [List.dedup_eq_self.mpr h]

/-- C7 (counterexample to the claim as stated): with two addresses that
both appear in the confirmed history and an empty pool, the downward scan
breaks at the last address, so the first address's flag is `false` even
though it appears in the confirmed history — refuting the claimed
if-and-only-if. -/
def stateBothSeen : VisorState :=
  { chain := [blockZero],
    unspent := [],
    pool := [],
    history := { parsedSeq := some 0, txnHashes := [31], seenAddrs := [40, 41],
                 parsedBlocks := [0] } }

/-- C7 counterexample: address 40 is history-seen, yet its activity flag
comes back `false` because the scan stopped at address 41. -/
theorem addressesActivity_misses_earlier_active :
    historySeen stateBothSeen 40 = true ∧
    addressesActivity stateBothSeen [.sky 40, .sky 41] = .ok [false, true] :=
  ⟨rfl, rfl⟩

/-- C7 (amended): `AddressesActivity` returns one flag per address in
order, errors on duplicate addresses, and a flag is true iff the address
is the LAST one in the list with confirmed-history activity, or appears
as an output of some unconfirmed-pool transaction. -/
theorem addressesActivity_spec (s : VisorState) (as : List Addr) :
    (¬ as.Nodup → ∃ e, addressesActivity s (as.map .sky) = .error e) ∧
    (∀ flags, addressesActivity s (as.map .sky) = .ok flags →
       flags.length = as.length ∧
       ∀ i (hi : i < as.length) (hf : i < flags.length),
         (flags.get ⟨i, hf⟩ = true ↔
           ((historySeen s (as.get ⟨i, hi⟩) = true ∧
             ∀ j (hj : j < as.length), i < j →
               historySeen s (as.get ⟨j, hj⟩) = false) ∨
            poolSendsTo s.pool (as.get ⟨i, hi⟩) = true))) := by
  constructor
  · intro hnd
    have hne : as ≠ [] := by
      intro h
      rw [h] at hnd
      exact hnd List.nodup_nil
    have hlen : as.dedup.length ≠ as.length := by
      intro h
      exact hnd ((dedup_length_eq_iff_nodup as).mp h)
    refine ⟨.msg "duplicates addresses not allowed", ?_⟩
    unfold addressesActivity
    rw [if_neg (by simp [List.isEmpty_iff, hne])]
    simp only [toSkyAddrs_map]
    rw [if_pos hlen]
  · intro flags hok
    by_cases hce : as = []
    · subst hce
      simp only [addressesActivity, List.map_nil, List.isEmpty_nil, if_true] at hok
      cases hok
      exact ⟨rfl, fun i hi => absurd hi (Nat.not_lt_zero i)⟩
    · have hnd : as.dedup.length = as.length := by
        by_contra hne2
        unfold addressesActivity at hok
        rw [if_neg (by simp [List.isEmpty_iff, hce])] at hok
        simp only [toSkyAddrs_map] at hok
        rw [if_pos hne2] at hok
        cases hok
      unfold addressesActivity at hok
      rw [if_neg (by simp [List.isEmpty_iff, hce])] at hok
      simp only [toSkyAddrs_map] at hok
      rw [if_neg (by simp [hnd])] at hok
      cases hok
      have hml := length_markLastSeen (historySeen s) as
      constructor
      · simp [List.length_zipWith, hml]
      · intro i hi hf
        have hfm : i < (markLastSeen (historySeen s) as).length := by
          rw [hml]; exact hi
        have hget : (List.zipWith (fun a f => f || poolSendsTo s.pool a) as
            (markLastSeen (historySeen s) as)).get
              ⟨i, hf⟩ =
            ((markLastSeen (historySeen s) as).get ⟨i, hfm⟩ ||
              poolSendsTo s.pool (as.get ⟨i, hi⟩)) := by
          simp [List.get_eq_getElem, List.getElem_zipWith]
        rw [hget, markLastSeen_get (historySeen s) as i hi hfm]
        rw [Bool.or_eq_true, Bool.and_eq_true, Bool.not_eq_true']
        rw [any_drop_eq_false_iff (historySeen s) as (i + 1)]
        constructor
        · rintro (⟨h1, h2⟩ | h3)
          · exact Or.inl ⟨h1, fun j hj hij => h2 j hj hij⟩
          · exact Or.inr h3
        · rintro (⟨h1, h2⟩ | h3)
          · exact Or.inl ⟨h1, fun j hj hij => h2 j hj hij⟩
          · exact Or.inr h3

/-- Witness for C7's amended theorem on a concrete duplicate-free query
with two history-seen addresses, discharging the ok hypothesis by
evaluation. -/
theorem addressesActivity_spec_witness :
    ([false, false, true] : List Bool).length = ([50, 40, 41] : List Addr).length ∧
    ∀ i (hi : i < ([50, 40, 41] : List Addr).length)
      (hf : i < ([false, false, true] : List Bool).length),
      (([false, false, true] : List Bool).get ⟨i, hf⟩ = true ↔
        ((historySeen stateBothSeen (([50, 40, 41] : List Addr).get ⟨i, hi⟩) = true ∧
          ∀ j (hj : j < ([50, 40, 41] : List Addr).length), i < j →
            historySeen stateBothSeen (([50, 40, 41] : List Addr).get ⟨j, hj⟩) = false) ∨
         poolSendsTo stateBothSeen.pool
           (([50, 40, 41] : List Addr).get ⟨i, hi⟩) = true)) :=
  (addressesActivity_spec stateBothSeen [50, 40, 41]).2 [false, false, true] rfl

/-- The value returned alongside any coin-hour summation error is 0, as in
the Go multiple-return convention. -/
theorem uxArrayCoinHours_error_val (t : Nat) (l : List UxOut)
    : (uxArrayCoinHours t l).2 ≠ none → (uxArrayCoinHours t l).1 = 0 := by
  cases l with
  | nil => exact fun h => absurd rfl h
  | cons ux rest =>
    unfold uxArrayCoinHours
    split
    · exact fun _ => rfl
    · split
      · exact fun _ => rfl
      · split
        · exact fun h => absurd rfl h
        · exact fun _ => rfl

/-- What a successful per-address balance computation guarantees: both
coin sums succeeded, and any coin-hour summation overflow (confirmed or
predicted) left the confirmed hours zeroed — and, for the predicted side,
the predicted hours zeroed as well — instead of aborting. -/
theorem balancePairOf_ok_shape (t : Nat) (uxs outUxs inUxs : List UxOut)
    (bp : BalancePair) (h : balancePairOf t uxs outUxs inUxs = .ok bp) :
    (uxArrayCoins uxs).isSome ∧
    (uxArrayCoins (uxArrayAdd (uxArraySub uxs outUxs) inUxs)).isSome ∧
    ((uxArrayCoinHours t uxs).2 ≠ none → bp.confirmed.hours = 0) ∧
    ((uxArrayCoinHours t (uxArrayAdd (uxArraySub uxs outUxs) inUxs)).2 ≠ none →
       bp.confirmed.hours = 0 ∧ bp.predicted.hours = 0) := by
  unfold balancePairOf at h
  cases hc : uxArrayCoins uxs with
  | none => rw [hc] at h; cases h
  | some coins =>
    rw [hc] at h
    cases hh : uxArrayCoinHours t uxs with
    | mk v e =>
      rw [hh] at h
      cases hpc : uxArrayCoins (uxArrayAdd (uxArraySub uxs outUxs) inUxs) with
      | none =>
        rw [hpc] at h
        cases e with
        | none => cases h
        | some e1 => cases e1 <;> cases h
      | some pcoins =>
        rw [hpc] at h
        cases hph : uxArrayCoinHours t (uxArrayAdd (uxArraySub uxs outUxs) inUxs) with
        | mk pv pe =>
          rw [hph] at h
          have hpv0 : pe ≠ none → pv = 0 := by
            intro hne
            have hv := uxArrayCoinHours_error_val t
              (uxArrayAdd (uxArraySub uxs outUxs) inUxs)
              (by rw [hph]; exact hne)
            rw [hph] at hv
            exact hv
          cases e with
          | some e1 =>
            cases e1 with
            | calcOverflow => cases h
            | addEarned =>
              cases pe with
              | some pe1 =>
                cases pe1 with
                | calcOverflow => cases h
                | addEarned =>
                  cases h
                  exact ⟨rfl, rfl, fun _ => by simp,
                    fun _ => ⟨by simp, by simpa using hpv0 (by simp)⟩⟩
              | none =>
                cases h
                exact ⟨rfl, rfl, fun _ => by simp, fun hne => absurd rfl hne⟩
          | none =>
            cases pe with
            | some pe1 =>
              cases pe1 with
              | calcOverflow => cases h
              | addEarned =>
                cases h
                exact ⟨rfl, rfl, fun hne => absurd rfl hne,
                  fun _ => ⟨by simp, by simpa using hpv0 (by simp)⟩⟩
            | none =>
              cases h
              exact ⟨rfl, rfl, fun hne => absurd rfl hne,
                fun hne => absurd rfl hne⟩

/-- What the per-address loop of `GetBalanceOfAddresses` guarantees when
it succeeds: one pair per address, in order; an address with no confirmed
unspents gets the zero pair, any other address gets its computed pair. -/
theorem balanceLoop_ok_get (headTime : Nat) (unspent uxa : List UxOut)
    (pool : List Transaction) (addrs : List Addr) (bps : List BalancePair)
    (h : balanceLoop headTime unspent uxa pool addrs = .ok bps) :
    bps.length = addrs.length ∧
    ∀ i (hi : i < addrs.length) (hb : i < bps.length),
      (unspentsOfAddr unspent (addrs.get ⟨i, hi⟩) = [] ∧
         bps.get ⟨i, hb⟩ = zeroBalancePair) ∨
      (unspentsOfAddr unspent (addrs.get ⟨i, hi⟩) ≠ [] ∧
         balancePairOf headTime (unspentsOfAddr unspent (addrs.get ⟨i, hi⟩))
           (uxa.filter (fun u => u.address == addrs.get ⟨i, hi⟩))
           (recvUxsOf headTime pool (addrs.get ⟨i, hi⟩)) =
           .ok (bps.get ⟨i, hb⟩)) := by
  induction addrs generalizing bps with
  | nil =>
    cases h
    exact ⟨rfl, fun i hi => absurd hi (Nat.not_lt_zero i)⟩
  | cons a rest ih =>
    unfold balanceLoop at h
    by_cases hz : (unspentsOfAddr unspent a).isEmpty = true
    · rw [if_pos hz] at h
      cases hr : balanceLoop headTime unspent uxa pool rest with
      | error e => rw [hr] at h; cases h
      | ok bps' =>
        rw [hr] at h
        cases h
        rcases ih bps' hr with ⟨hlen, hget⟩
        refine ⟨by simp [hlen], ?_⟩
        intro i hi hb
        cases i with
        | zero => exact Or.inl ⟨List.isEmpty_iff.mp hz, rfl⟩
        | succ n =>
          exact hget n (Nat.lt_of_succ_lt_succ hi) (Nat.lt_of_succ_lt_succ hb)
    · rw [if_neg hz] at h
      cases hbp : balancePairOf headTime (unspentsOfAddr unspent a)
          (uxa.filter (fun u => u.address == a)) (recvUxsOf headTime pool a) with
      | error e => rw [hbp] at h; cases h
      | ok bp =>
        rw [hbp] at h
        cases hr : balanceLoop headTime unspent uxa pool rest with
        | error e => rw [hr] at h; cases h
        | ok bps' =>
          rw [hr] at h
          cases h
          rcases ih bps' hr with ⟨hlen, hget⟩
          refine ⟨by simp [hlen], ?_⟩
          intro i hi hb
          cases i with
          | zero =>
            refine Or.inr ⟨fun h0 => hz ?_, hbp⟩
            have h0a : unspentsOfAddr unspent a = [] := h0
            rw [h0a]
            rfl
          | succ n =>
            exact hget n (Nat.lt_of_succ_lt_succ hi) (Nat.lt_of_succ_lt_succ hb)

/-- A balance computed with no pool adjustment has equal confirmed and
predicted parts. -/
theorem balancePairOf_no_adjust (t : Nat) (uxs : List UxOut) (bp : BalancePair)
    (h : balancePairOf t uxs [] [] = .ok bp) : bp.confirmed = bp.predicted := by
  have hpred : uxArrayAdd (uxArraySub uxs []) [] = uxs := by
    simp [uxArrayAdd, uxArraySub]
  unfold balancePairOf at h
  rw [hpred] at h
  cases hc : uxArrayCoins uxs with
  | none => rw [hc] at h; cases h
  | some coins =>
    rw [hc] at h
    cases hh : uxArrayCoinHours t uxs with
    | mk v e =>
      rw [hh] at h
      cases e with
      | none =>
        cases h
        simp
      | some e1 =>
        cases e1 with
        | calcOverflow => cases h
        | addEarned =>
          have hv : v = 0 := by
            have hval := uxArrayCoinHours_error_val t uxs (by rw [hh]; simp)
            rw [hh] at hval
            exact hval
          cases h
          subst hv
          simp

/-- The head block of the concrete balance scenarios. -/
def headBlockC1 : SignedBlock :=
  { block := { seq := 0, time := 1000, hh := 30, txns := [] }, sig := sigFor 1 30 }

/-- Two confirmed unspents of address 7 whose coin-hour amounts each fit
uint64 but whose sum overflows. -/
def unspentC1 : List UxOut :=
  [ { id := 1, address := 7, coins := 1, hours := 9223372036854775808, ctime := 1000 },
    { id := 2, address := 7, coins := 1, hours := 9223372036854775808, ctime := 1000 } ]

/-- The state whose confirmed coin-hour sum for address 7 overflows. -/
def stateC1 : VisorState :=
  { chain := [headBlockC1], unspent := unspentC1, pool := [],
    history := staleHistory }

/-- C1 counterexample: a coin-hour addition overflow while summing the
confirmed total does NOT abort `GetBalanceOfAddresses`: the call returns
ok with the hours silently zeroed, where the claim demands a
distinguishable error. -/
theorem getBalanceOfAddresses_hours_overflow_no_error :
    (uxArrayCoinHours 1000 (unspentsOfAddr stateC1.unspent 7)).2 =
      some CHErr.addEarned ∧
    getBalanceOfAddresses stateC1 [7] = .ok [⟨⟨2, 0⟩, ⟨2, 0⟩⟩] :=
  ⟨rfl, rfl⟩

/-- C1 (amended): when `GetBalanceOfAddresses` succeeds, every coin
addition in the confirmed and predicted sums of every queried address
succeeded — a coin-sum overflow always aborts with an error — but a
coin-hour addition overflow does not abort: the balance is returned with
the confirmed hours zeroed (and, when the predicted sum overflowed, the
predicted hours are the zero returned alongside the error). -/
theorem getBalanceOfAddresses_overflow_behavior (s : VisorState)
    (addrs : List Addr) (bps : List BalancePair) (head : SignedBlock)
    (uxa : List UxOut)
    (hhead : s.chain.getLast? = some head)
    (huxa : getArray s.unspent (s.pool.flatMap (fun t => t.inputs)) = some uxa)
    (h : getBalanceOfAddresses s addrs = .ok bps) :
    bps.length = addrs.length ∧
    ∀ i (hi : i < addrs.length) (hb : i < bps.length),
      unspentsOfAddr s.unspent (addrs.get ⟨i, hi⟩) ≠ [] →
      ((uxArrayCoins (unspentsOfAddr s.unspent (addrs.get ⟨i, hi⟩))).isSome ∧
       (uxArrayCoins (uxArrayAdd
          (uxArraySub (unspentsOfAddr s.unspent (addrs.get ⟨i, hi⟩))
            (uxa.filter (fun u => u.address == addrs.get ⟨i, hi⟩)))
          (recvUxsOf head.block.time s.pool (addrs.get ⟨i, hi⟩)))).isSome ∧
       ((uxArrayCoinHours head.block.time
           (unspentsOfAddr s.unspent (addrs.get ⟨i, hi⟩))).2 ≠ none →
          (bps.get ⟨i, hb⟩).confirmed.hours = 0) ∧
       ((uxArrayCoinHours head.block.time (uxArrayAdd
           (uxArraySub (unspentsOfAddr s.unspent (addrs.get ⟨i, hi⟩))
             (uxa.filter (fun u => u.address == addrs.get ⟨i, hi⟩)))
           (recvUxsOf head.block.time s.pool (addrs.get ⟨i, hi⟩)))).2 ≠ none →
          (bps.get ⟨i, hb⟩).confirmed.hours = 0 ∧
          (bps.get ⟨i, hb⟩).predicted.hours = 0)) := by
  by_cases hce : addrs = []
  · subst hce
    unfold getBalanceOfAddresses at h
    simp only [List.isEmpty_nil, if_true] at h
    cases h
    exact ⟨rfl, fun i hi => absurd hi (Nat.not_lt_zero i)⟩
  · unfold getBalanceOfAddresses at h
    rw [if_neg (by simp [List.isEmpty_iff, hce]), hhead, huxa] at h
    have h2 : balanceLoop head.block.time s.unspent uxa s.pool addrs = .ok bps := h
    rcases balanceLoop_ok_get _ _ _ _ _ _ h2 with ⟨hlen, hget⟩
    refine ⟨hlen, ?_⟩
    intro i hi hb hne
    rcases hget i hi hb with ⟨hz, _⟩ | ⟨_, hbp⟩
    · exact absurd hz hne
    · exact balancePairOf_ok_shape _ _ _ _ _ hbp

/-- Witness for C1's amended theorem at the concrete overflowing state,
all hypotheses discharged by evaluation. -/
theorem getBalanceOfAddresses_overflow_behavior_witness :
    ([⟨⟨2, 0⟩, ⟨2, 0⟩⟩] : List BalancePair).length = ([7] : List Addr).length ∧
    ∀ i (hi : i < ([7] : List Addr).length)
      (hb : i < ([⟨⟨2, 0⟩, ⟨2, 0⟩⟩] : List BalancePair).length),
      unspentsOfAddr stateC1.unspent (([7] : List Addr).get ⟨i, hi⟩) ≠ [] →
      ((uxArrayCoins (unspentsOfAddr stateC1.unspent
          (([7] : List Addr).get ⟨i, hi⟩))).isSome ∧
       (uxArrayCoins (uxArrayAdd
          (uxArraySub (unspentsOfAddr stateC1.unspent (([7] : List Addr).get ⟨i, hi⟩))
            (([] : List UxOut).filter
              (fun u => u.address == ([7] : List Addr).get ⟨i, hi⟩)))
          (recvUxsOf headBlockC1.block.time stateC1.pool
            (([7] : List Addr).get ⟨i, hi⟩)))).isSome ∧
       ((uxArrayCoinHours headBlockC1.block.time
           (unspentsOfAddr stateC1.unspent (([7] : List Addr).get ⟨i, hi⟩))).2 ≠ none →
          (([⟨⟨2, 0⟩, ⟨2, 0⟩⟩] : List BalancePair).get ⟨i, hb⟩).confirmed.hours = 0) ∧
       ((uxArrayCoinHours headBlockC1.block.time (uxArrayAdd
           (uxArraySub (unspentsOfAddr stateC1.unspent (([7] : List Addr).get ⟨i, hi⟩))
             (([] : List UxOut).filter
               (fun u => u.address == ([7] : List Addr).get ⟨i, hi⟩)))
           (recvUxsOf headBlockC1.block.time stateC1.pool
             (([7] : List Addr).get ⟨i, hi⟩)))).2 ≠ none →
          (([⟨⟨2, 0⟩, ⟨2, 0⟩⟩] : List BalancePair).get ⟨i, hb⟩).confirmed.hours = 0 ∧
          (([⟨⟨2, 0⟩, ⟨2, 0⟩⟩] : List BalancePair).get ⟨i, hb⟩).predicted.hours = 0)) :=
  getBalanceOfAddresses_overflow_behavior stateC1 [7] [⟨⟨2, 0⟩, ⟨2, 0⟩⟩]
    headBlockC1 [] rfl rfl rfl

/-- C9: with an empty unconfirmed pool, every balance pair returned by
`GetBalanceOfAddresses` has its predicted balance exactly equal to its
confirmed balance, in coins and hours. -/
theorem getBalanceOfAddresses_empty_pool (s : VisorState) (addrs : List Addr)
    (bps : List BalancePair) (hpool : s.pool = [])
    (h : getBalanceOfAddresses s addrs = .ok bps) :
    ∀ bp ∈ bps, bp.confirmed = bp.predicted := by
  by_cases hce : addrs = []
  · subst hce
    unfold getBalanceOfAddresses at h
    simp only [List.isEmpty_nil, if_true] at h
    cases h
    intro bp hbp
    cases hbp
  · unfold getBalanceOfAddresses at h
    rw [if_neg (by simp [List.isEmpty_iff, hce])] at h
    cases hhead : s.chain.getLast? with
    | none => rw [hhead] at h; cases h
    | some head =>
      rw [hhead, hpool] at h
      have h2 : balanceLoop head.block.time s.unspent [] [] addrs = .ok bps := h
      rcases balanceLoop_ok_get _ _ _ _ _ _ h2 with ⟨hlen, hget⟩
      intro bp hbp
      rcases List.mem_iff_get.mp hbp with ⟨⟨i, hb⟩, rfl⟩
      have hi : i < addrs.length := hlen ▸ hb
      rcases hget i hi hb with ⟨_, hz⟩ | ⟨_, hbp2⟩
      · rw [hz]
        rfl
      · have hbp3 : balancePairOf head.block.time
            (unspentsOfAddr s.unspent (addrs.get ⟨i, hi⟩)) [] [] =
            .ok (bps.get ⟨i, hb⟩) := hbp2
        exact balancePairOf_no_adjust _ _ _ hbp3

/-- A state with one confirmed unspent and an empty pool. -/
def stateRich : VisorState :=
  { chain := [headBlockC1],
    unspent := [{ id := 3, address := 8, coins := 3, hours := 5, ctime := 1000 }],
    pool := [],
    history := staleHistory }

/-- Witness for C9 on a concrete one-unspent state with an empty pool. -/
theorem getBalanceOfAddresses_empty_pool_witness :
    stateRich.pool = [] ∧
    ∀ bp ∈ ([⟨⟨3, 5⟩, ⟨3, 5⟩⟩] : List BalancePair), bp.confirmed = bp.predicted :=
  ⟨rfl, getBalanceOfAddresses_empty_pool stateRich [8] [⟨⟨3, 5⟩, ⟨3, 5⟩⟩] rfl rfl⟩

/-- C10: an address owning no confirmed unspent outputs gets the all-zero
balance pair from `GetBalanceOfAddresses`, whatever outputs the pool
transactions would create for it. -/
theorem getBalanceOfAddresses_no_unspents (s : VisorState) (addrs : List Addr)
    (bps : List BalancePair) (i : Nat)
    (h : getBalanceOfAddresses s addrs = .ok bps)
    (hi : i < addrs.length) (hb : i < bps.length)
    (hz : unspentsOfAddr s.unspent (addrs.get ⟨i, hi⟩) = []) :
    bps.get ⟨i, hb⟩ = zeroBalancePair := by
  have hce : addrs ≠ [] := by
    intro h0
    rw [h0] at hi
    exact absurd hi (Nat.not_lt_zero i)
  unfold getBalanceOfAddresses at h
  rw [if_neg (by simp [List.isEmpty_iff, hce])] at h
  cases hhead : s.chain.getLast? with
  | none => rw [hhead] at h; cases h
  | some head =>
    rw [hhead] at h
    cases huxa : getArray s.unspent (s.pool.flatMap (fun t => t.inputs)) with
    | none => rw [huxa] at h; cases h
    | some uxa =>
      rw [huxa] at h
      have h2 : balanceLoop head.block.time s.unspent uxa s.pool addrs = .ok bps := h
      rcases balanceLoop_ok_get _ _ _ _ _ _ h2 with ⟨_, hget⟩
      rcases hget i hi hb with ⟨_, hzp⟩ | ⟨hne, _⟩
      · exact hzp
      · exact absurd hz hne

/-- A state where a pool transaction pays address 7, which owns no
confirmed unspents. -/
def stateC10 : VisorState :=
  { chain := [{ block := { seq := 0, time := 50, hh := 31, txns := [] },
                sig := sigFor 1 31 }],
    unspent := [{ id := 1, address := 9, coins := 2, hours := 2, ctime := 50 }],
    pool := [{ hash := 4, inputs := [1], outs := [⟨7, 5, 5⟩], size := 1 }],
    history := staleHistory }

/-- Witness for C10: address 7 has pool-implied incoming outputs but no
confirmed unspents, and its returned pair is the zero pair. -/
theorem getBalanceOfAddresses_no_unspents_witness :
    recvUxsOf 50 stateC10.pool 7 ≠ [] ∧
    unspentsOfAddr stateC10.unspent 7 = [] ∧
    ([zeroBalancePair] : List BalancePair).get ⟨0, Nat.zero_lt_one⟩ =
      zeroBalancePair :=
  ⟨by decide, rfl,
   getBalanceOfAddresses_no_unspents stateC10 [7] [zeroBalancePair] 0 rfl
     Nat.zero_lt_one Nat.zero_lt_one rfl⟩

end NessVisor
